import Mathlib

/-!
Verification of the retrix room timeline cache and reconciliation engine.

The definitions below are a shallow embedding of the code in src/ui.rs
(struct MessageBuffer with push, append, remove, sort, update_time,
has_beginning; struct RoomEntry; the relevant arms of MainView::update)
together with the event accessors from src/matrix.rs (trait
AnyRoomEventExt: event_id, origin_server_ts).

Modelling conventions:
* EventId, RoomId and timestamps (SystemTime) are Nat; UNIX_EPOCH is 0.
* Rust HashSet<EventId> is Finset Nat; Vec is List.
* Event payload fields that none of the modelled operations consult
  (sender, message bodies, room ids on message events) are omitted; the
  fields the code matches on (relates_to/Relation::Replacement, redacts,
  the RoomAvatar content url, the RoomCreate tag) are kept.
* Vec::sort_unstable_by_key(origin_server_ts) guarantees only that the
  result is some permutation of the input that is ascending by the key;
  the deterministic model uses List.insertionSort with the same key, and
  the full (weaker) contract of the unstable sort is captured separately
  by sortContract for the claims whose truth depends on tie order.
* Asynchronous SDK calls are external collaborators: their results enter
  the update function as parameters (last_prev_batch, MessageResponse),
  matching how iced delivers them as messages.
* A Rust panic (Option::unwrap on None) is modelled by an Option-valued
  update returning none.
-/

namespace Retrix

/-- Event identifiers, modelling matrix EventId. -/
abbrev EventId := Nat

/-- The relation attached to a room message, modelling
matrix_sdk::events::room::message::Relation.  Only the Replacement
variant is inspected by the code; every other variant is collapsed into
otherRelation. -/
inductive Relation where
  | replacement (event_id : EventId)
  | otherRelation
  deriving DecidableEq

/-- Message events, modelling AnyMessageEvent.  RoomMessage carries its
relates_to relation, RoomRedaction carries the redacts target. -/
inductive AnyMessageEvent where
  | roomMessage (event_id : EventId) (origin_server_ts : Nat) (relates_to : Option Relation)
  | roomRedaction (event_id : EventId) (origin_server_ts : Nat) (redacts : EventId)
  | roomEncrypted (event_id : EventId) (origin_server_ts : Nat)
  | otherMessage (event_id : EventId) (origin_server_ts : Nat)
  deriving DecidableEq

/-- State events, modelling AnyStateEvent.  RoomCreate is what
has_beginning looks for; RoomAvatar carries the content avatar url. -/
inductive AnyStateEvent where
  | roomCreate (event_id : EventId) (origin_server_ts : Nat) (room_id : Nat)
  | roomAvatar (event_id : EventId) (origin_server_ts : Nat) (room_id : Nat) (url : Option String)
  | otherState (event_id : EventId) (origin_server_ts : Nat) (room_id : Nat)
  deriving DecidableEq

/-- Room events, modelling AnyRoomEvent with its four variants. -/
inductive AnyRoomEvent where
  | message (e : AnyMessageEvent)
  | state (e : AnyStateEvent)
  | redactedMessage (event_id : EventId) (origin_server_ts : Nat)
  | redactedState (event_id : EventId) (origin_server_ts : Nat)
  deriving DecidableEq

/-- event_id of a message event. -/
def AnyMessageEvent.event_id : AnyMessageEvent → EventId
  | .roomMessage i _ _ => i
  | .roomRedaction i _ _ => i
  | .roomEncrypted i _ => i
  | .otherMessage i _ => i

/-- origin_server_ts of a message event. -/
def AnyMessageEvent.origin_server_ts : AnyMessageEvent → Nat
  | .roomMessage _ t _ => t
  | .roomRedaction _ t _ => t
  | .roomEncrypted _ t => t
  | .otherMessage _ t => t

/-- event_id of a state event. -/
def AnyStateEvent.event_id : AnyStateEvent → EventId
  | .roomCreate i _ _ => i
  | .roomAvatar i _ _ _ => i
  | .otherState i _ _ => i

/-- origin_server_ts of a state event. -/
def AnyStateEvent.origin_server_ts : AnyStateEvent → Nat
  | .roomCreate _ t _ => t
  | .roomAvatar _ t _ _ => t
  | .otherState _ t _ => t

/-- room_id of a state event. -/
def AnyStateEvent.room_id : AnyStateEvent → Nat
  | .roomCreate _ _ r => r
  | .roomAvatar _ _ r _ => r
  | .otherState _ _ r => r

/-- AnyRoomEventExt::event_id from src/matrix.rs. -/
def AnyRoomEvent.event_id : AnyRoomEvent → EventId
  | .message e => e.event_id
  | .state e => e.event_id
  | .redactedMessage i _ => i
  | .redactedState i _ => i

/-- AnyRoomEventExt::origin_server_ts from src/matrix.rs. -/
def AnyRoomEvent.origin_server_ts : AnyRoomEvent → Nat
  | .message e => e.origin_server_ts
  | .state e => e.origin_server_ts
  | .redactedMessage _ t => t
  | .redactedState _ t => t

/-- The replacement target matched by the first if-let in push and in
the append loop: Some iff the event is a RoomMessage whose relates_to is
Some(Relation::Replacement(target)). -/
def AnyRoomEvent.replacementTarget : AnyRoomEvent → Option EventId
  | .message (.roomMessage _ _ (some (.replacement t))) => some t
  | _ => none

/-- The redaction target matched by the second if-let in push and in
the append loop: Some iff the event is a RoomRedaction. -/
def AnyRoomEvent.redactionTarget : AnyRoomEvent → Option EventId
  | .message (.roomRedaction _ _ r) => some r
  | _ => none

/-- The (at most one) relation target of an event, as a list. -/
def AnyRoomEvent.targets (e : AnyRoomEvent) : List EventId :=
  e.replacementTarget.toList ++ e.redactionTarget.toList

/-- The comparison key relation used by MessageBuffer::sort:
sort_unstable_by_key(|msg| msg.origin_server_ts()). -/
def tsLe (a b : AnyRoomEvent) : Prop :=
  a.origin_server_ts ≤ b.origin_server_ts

instance : DecidableRel tsLe :=
  fun a b => Nat.decLe a.origin_server_ts b.origin_server_ts

instance : IsTotal AnyRoomEvent tsLe :=
  ⟨fun a b => Nat.le_total a.origin_server_ts b.origin_server_ts⟩

instance : IsTrans AnyRoomEvent tsLe :=
  ⟨fun _ _ _ hab hbc => Nat.le_trans hab hbc⟩

/-- The event ids of a list of events. -/
def idsL (l : List AnyRoomEvent) : List EventId :=
  l.map AnyRoomEvent.event_id

/-- Message history/event cache for a given room, modelling struct
MessageBuffer from src/ui.rs.  The Rust fields start and end are named
startCursor and endCursor here (end is a Lean keyword); updated models
the SystemTime field with UNIX_EPOCH as 0. -/
structure MessageBuffer where
  messages : List AnyRoomEvent
  known_ids : Finset EventId
  startCursor : Option String
  endCursor : Option String
  updated : Nat
  loading : Bool
  deriving DecidableEq

namespace MessageBuffer

/-- impl Default for MessageBuffer. -/
def default : MessageBuffer :=
  { messages := []
    known_ids := ∅
    startCursor := none
    endCursor := none
    updated := 0
    loading := false }

/-- MessageBuffer::sort: sorts the messages by send time.  The source
uses Vec::sort_unstable_by_key; the deterministic model uses a sort by
the same key (see sortContract below for the exact unstable contract). -/
def sort (b : MessageBuffer) : MessageBuffer :=
  { b with messages := b.messages.insertionSort tsLe }

/-- MessageBuffer::update_time: sets updated to the send time of the
most recently sent message, or UNIX_EPOCH when empty. -/
def update_time (b : MessageBuffer) : MessageBuffer :=
  { b with
    updated :=
      match b.messages.getLast? with
      | some message => message.origin_server_ts
      | none => 0 }

/-- MessageBuffer::remove: retains the messages with a different event
id and removes the id from known_ids. -/
def remove (b : MessageBuffer) (id : EventId) : MessageBuffer :=
  { b with
    messages := b.messages.filter (fun e => e.event_id ≠ id)
    known_ids := b.known_ids.erase id }

/-- The two if-let blocks shared by push and the append loop: remove
the replacement target if the event is a replacing RoomMessage, remove
the redaction target if it is a RoomRedaction. -/
def removeTargets (b : MessageBuffer) (event : AnyRoomEvent) : MessageBuffer :=
  let b1 :=
    match event.replacementTarget with
    | some target => b.remove target
    | none => b
  match event.redactionTarget with
  | some target => b1.remove target
  | none => b1

/-- MessageBuffer::push before its final sort and update_time calls:
insert the id into known_ids, handle replacement and redaction, push
the event onto messages. -/
def pushRaw (b : MessageBuffer) (event : AnyRoomEvent) : MessageBuffer :=
  let b1 := removeTargets { b with known_ids := insert event.event_id b.known_ids } event
  { b1 with messages := b1.messages ++ [event] }

/-- MessageBuffer::push: add a message to the buffer. -/
def push (b : MessageBuffer) (event : AnyRoomEvent) : MessageBuffer :=
  ((b.pushRaw event).sort).update_time

/-- One iteration of the for-loop in MessageBuffer::append: handle
replacement and redaction, then insert the event id into known_ids. -/
def appendStep (b : MessageBuffer) (event : AnyRoomEvent) : MessageBuffer :=
  let b1 := removeTargets b event
  { b1 with known_ids := insert event.event_id b1.known_ids }

/-- The retain call at the top of MessageBuffer::append: the events of
the batch whose id is not already in known_ids. -/
def survivors (b : MessageBuffer) (events : List AnyRoomEvent) : List AnyRoomEvent :=
  events.filter (fun e => e.event_id ∉ b.known_ids)

/-- MessageBuffer::append before its final sort and update_time calls:
retain the events whose id is not yet known, run the loop body on each
surviving event, then append the surviving events to messages. -/
def appendRaw (b : MessageBuffer) (events : List AnyRoomEvent) : MessageBuffer :=
  let surviving := survivors b events
  let b1 := surviving.foldl appendStep b
  { b1 with messages := b1.messages ++ surviving }

/-- MessageBuffer::append: adds several messages to the buffer. -/
def append (b : MessageBuffer) (events : List AnyRoomEvent) : MessageBuffer :=
  ((b.appendRaw events).sort).update_time

/-- MessageBuffer::has_beginning: whether the buffer has the room
creation event. -/
def has_beginning (b : MessageBuffer) : Bool :=
  b.messages.any (fun e =>
    match e with
    | .state (.roomCreate _ _ _) => true
    | _ => false)

end MessageBuffer

/-- Data for an entry in the room list, modelling struct RoomEntry from
src/ui.rs.  RoomAliasId and UserId are modelled as String and Nat; the
Rust field alias is named roomAlias here (alias is a Lean keyword). -/
structure RoomEntry where
  name : String
  topic : String
  roomAlias : Option String
  display_name : Option String
  avatar : Option String
  direct : Option Nat
  messages : MessageBuffer
  deriving DecidableEq

/-- impl Default (derived) for RoomEntry. -/
def RoomEntry.default : RoomEntry :=
  { name := ""
    topic := ""
    roomAlias := none
    display_name := none
    avatar := none
    direct := none
    messages := MessageBuffer.default }

/-- BTreeMap::get on the room registry. -/
def mapLookup : List (Nat × RoomEntry) → Nat → Option RoomEntry
  | [], _ => none
  | (k, v) :: rest, key => if k = key then some v else mapLookup rest key

/-- BTreeMap::insert on the room registry (replace the value when the
key is present, add the pair otherwise). -/
def mapInsert : List (Nat × RoomEntry) → Nat → RoomEntry → List (Nat × RoomEntry)
  | [], key, v => [(key, v)]
  | (k, v') :: rest, key, v =>
    if k = key then (key, v) :: rest else (k, v') :: mapInsert rest key v

/-- The pagination response, modelling
get_message_events::Response.  chunk and state are modelled as the
already-deserialized events (MainView::update drops elements whose
deserialization fails before any state is touched).  The Rust fields
start and end are named startTok and endTok. -/
structure MessageResponse where
  chunk : List AnyRoomEvent
  state : List AnyStateEvent
  startTok : Option String
  endTok : Option String
  deriving DecidableEq

/-- The slice of struct MainView from src/ui.rs that the modelled
update arms read or write: the sync token, the selected room, the error
banner and the room registry.  The matrix client, widget state and
image caches are external or rendering-layer state. -/
structure MainView where
  sync_token : String
  selected : Option Nat
  error : Option String
  rooms : List (Nat × RoomEntry)
  deriving DecidableEq

namespace MainView

/-- The Message::ErrorMessage arm of MainView::update. -/
def errorMessage (view : MainView) (e : String) : MainView :=
  { view with error := some e }

/-- The Message::BackFill arm of MainView::update, up to issuing the
asynchronous request: create the entry on demand, set loading, and
compute the request token as the stored end cursor if present, else the
last_prev_batch of the SDK room (an external collaborator, passed as a
parameter) if present, else the global sync token.  Returns the updated
view and the token used by the request. -/
def backFill (view : MainView) (id : Nat) (last_prev_batch : Option String) :
    MainView × String :=
  let entry := (mapLookup view.rooms id).getD RoomEntry.default
  let entry := { entry with messages := { entry.messages with loading := true } }
  let token :=
    match entry.messages.endCursor with
    | some e => e
    | none => last_prev_batch.getD view.sync_token
  ({ view with rooms := mapInsert view.rooms id entry }, token)

/-- The Message::BackFilled arm of MainView::update.  The source does
view.rooms.get_mut(&id).unwrap(); the None case of that unwrap is a
panic, modelled by returning none.  Otherwise: clear loading, build the
event list from chunk and state, overwrite the start and end cursors
when the response carries them, and append the events. -/
def backFilled (view : MainView) (id : Nat) (response : MessageResponse) :
    Option MainView :=
  match mapLookup view.rooms id with
  | none => none
  | some room =>
    let room := { room with messages := { room.messages with loading := false } }
    let events : List AnyRoomEvent :=
      response.chunk ++ response.state.map AnyRoomEvent.state
    let room :=
      match response.startTok with
      | some s => { room with messages := { room.messages with startCursor := some s } }
      | none => room
    let room :=
      match response.endTok with
      | some e => { room with messages := { room.messages with endCursor := some e } }
      | none => room
    let room := { room with messages := room.messages.append events }
    some { view with rooms := mapInsert view.rooms id room }

/-- The Message::SelectRoom arm of MainView::update.  The source does
view.rooms.get(&r).unwrap() after setting the selection; the None case
is a panic, modelled by returning none.  The returned Bool records
whether a BackFill command is issued (the store was empty). -/
def selectRoom (view : MainView) (r : Nat) : Option (MainView × Bool) :=
  let view := { view with selected := some r }
  match mapLookup view.rooms r with
  | none => none
  | some room => some (view, room.messages.messages.isEmpty)

/-- The AnyStateEvent::RoomAvatar arm of the Message::Sync handler in
MainView::update: create the entry on demand, push the state event into
the room store, and then run the if-let from the source, which reads
room.avatar (the value already stored) and assigns it back, never
consulting the url carried by the event. -/
def syncRoomAvatar (view : MainView) (event_id origin_server_ts room_id : Nat)
    (url : Option String) : MainView :=
  let room := (mapLookup view.rooms room_id).getD RoomEntry.default
  let room :=
    { room with
      messages :=
        room.messages.push (.state (.roomAvatar event_id origin_server_ts room_id url)) }
  let room :=
    match room.avatar with
    | some u => { room with avatar := some u }
    | none => room
  { view with rooms := mapInsert view.rooms room_id room }

end MainView

/-- The behavioural contract of Vec::sort_unstable_by_key with key
origin_server_ts: the output is a permutation of the input that is
ascending by the key.  The contract does not constrain the relative
order of elements with equal keys. -/
def sortContract (l l' : List AnyRoomEvent) : Prop :=
  l'.Perm l ∧ List.Chain' tsLe l'

/-- The two store invariants of the specification: the message ids are
pairwise distinct, and every stored message id is in known_ids. -/
def MessageBuffer.Inv (b : MessageBuffer) : Prop :=
  (idsL b.messages).Nodup ∧ ∀ e ∈ b.messages, e.event_id ∈ b.known_ids

/-! Concrete inputs used by the concrete-instance theorems below. -/

/-- A plain message event, id 0, timestamp 5. -/
def evA : AnyRoomEvent := .message (.roomMessage 0 5 none)

/-- A plain message event, id 1, timestamp 3. -/
def evB : AnyRoomEvent := .message (.roomMessage 1 3 none)

/-- A plain message event, id 2, timestamp 10. -/
def evC : AnyRoomEvent := .message (.roomMessage 2 10 none)

/-- A plain message event, id 1, with the same timestamp as evA. -/
def evB5 : AnyRoomEvent := .message (.roomMessage 1 5 none)

/-- A redaction event whose redacts target is its own event id. -/
def selfRedact : AnyRoomEvent := .message (.roomRedaction 0 7 0)

/-- An edit: a room message carrying a replacement relation whose
target is the id of evA. -/
def editOfA : AnyRoomEvent := .message (.roomMessage 1 10 (some (.replacement 0)))

/-- A view with an empty room registry. -/
def emptyView : MainView :=
  { sync_token := "G", selected := none, error := none, rooms := [] }

/-- A room entry whose store holds both pagination cursors. -/
def entryST : RoomEntry :=
  { RoomEntry.default with
    messages :=
      { MessageBuffer.default with startCursor := some "S", endCursor := some "T" } }

/-- A view whose registry has room 0 with both cursors set. -/
def viewST : MainView :=
  { sync_token := "G", selected := none, error := none, rooms := [(0, entryST)] }

/-- A pagination response carrying one event and fresh cursors. -/
def respC7 : MessageResponse :=
  { chunk := [evB], state := [], startTok := some "S2", endTok := some "T2" }

/-- The view after merging respC7 into room 0 of viewST. -/
def viewC7 : MainView := (viewST.backFilled 0 respC7).getD viewST

/-- The room 0 entry of viewC7. -/
def roomC7 : RoomEntry := (mapLookup viewC7.rooms 0).getD RoomEntry.default

/-! Supporting lemmas about the MessageBuffer operations. -/

namespace MessageBuffer

@[simp]
theorem sort_messages (b : MessageBuffer) :
    b.sort.messages = b.messages.insertionSort tsLe := rfl

@[simp]
theorem sort_known_ids (b : MessageBuffer) : b.sort.known_ids = b.known_ids := rfl

@[simp]
theorem sort_startCursor (b : MessageBuffer) : b.sort.startCursor = b.startCursor := rfl

@[simp]
theorem sort_endCursor (b : MessageBuffer) : b.sort.endCursor = b.endCursor := rfl

@[simp]
theorem sort_loading (b : MessageBuffer) : b.sort.loading = b.loading := rfl

@[simp]
theorem update_time_messages (b : MessageBuffer) : b.update_time.messages = b.messages := rfl

@[simp]
theorem update_time_known_ids (b : MessageBuffer) :
    b.update_time.known_ids = b.known_ids := rfl

@[simp]
theorem update_time_startCursor (b : MessageBuffer) :
    b.update_time.startCursor = b.startCursor := rfl

@[simp]
theorem update_time_endCursor (b : MessageBuffer) :
    b.update_time.endCursor = b.endCursor := rfl

@[simp]
theorem update_time_loading (b : MessageBuffer) : b.update_time.loading = b.loading := rfl

@[simp]
theorem remove_known_ids (b : MessageBuffer) (i : EventId) :
    (b.remove i).known_ids = b.known_ids.erase i := rfl

theorem mem_remove_messages {b : MessageBuffer} {i : EventId} {m : AnyRoomEvent} :
    m ∈ (b.remove i).messages ↔ m ∈ b.messages ∧ m.event_id ≠ i := by
  simp [remove, List.mem_filter]

theorem remove_messages_sublist (b : MessageBuffer) (i : EventId) :
    (b.remove i).messages.Sublist b.messages :=
  List.filter_sublist b.messages

theorem mem_targets {e : AnyRoomEvent} {t : EventId} :
    t ∈ e.targets ↔ e.replacementTarget = some t ∨ e.redactionTarget = some t := by
  simp [AnyRoomEvent.targets, Option.mem_toList, Option.mem_def]

theorem removeTargets_startCursor (b : MessageBuffer) (e : AnyRoomEvent) :
    (removeTargets b e).startCursor = b.startCursor := by
  unfold removeTargets
  rcases e.replacementTarget with _ | t <;> rcases e.redactionTarget with _ | u <;> rfl

theorem removeTargets_endCursor (b : MessageBuffer) (e : AnyRoomEvent) :
    (removeTargets b e).endCursor = b.endCursor := by
  unfold removeTargets
  rcases e.replacementTarget with _ | t <;> rcases e.redactionTarget with _ | u <;> rfl

theorem removeTargets_loading (b : MessageBuffer) (e : AnyRoomEvent) :
    (removeTargets b e).loading = b.loading := by
  unfold removeTargets
  rcases e.replacementTarget with _ | t <;> rcases e.redactionTarget with _ | u <;> rfl

theorem mem_removeTargets_messages {b : MessageBuffer} {e m : AnyRoomEvent} :
    m ∈ (removeTargets b e).messages ↔ m ∈ b.messages ∧ m.event_id ∉ e.targets := by
  unfold removeTargets
  rcases hr : e.replacementTarget with _ | a <;> rcases hd : e.redactionTarget with _ | c <;>
    simp [mem_remove_messages, mem_targets, hr, hd] <;> tauto

theorem mem_removeTargets_known {b : MessageBuffer} {e : AnyRoomEvent} {i : EventId} :
    i ∈ (removeTargets b e).known_ids ↔ i ∈ b.known_ids ∧ i ∉ e.targets := by
  unfold removeTargets
  rcases hr : e.replacementTarget with _ | a <;> rcases hd : e.redactionTarget with _ | c <;>
    simp [Finset.mem_erase, mem_targets, hr, hd] <;> tauto

theorem removeTargets_messages_sublist (b : MessageBuffer) (e : AnyRoomEvent) :
    (removeTargets b e).messages.Sublist b.messages := by
  unfold removeTargets
  rcases e.replacementTarget with _ | a <;> rcases e.redactionTarget with _ | c
  · exact List.Sublist.refl _
  · exact remove_messages_sublist b c
  · exact remove_messages_sublist b a
  · exact ((remove_messages_sublist _ c).trans (remove_messages_sublist b a))

theorem mem_pushRaw_messages {b : MessageBuffer} {e m : AnyRoomEvent} :
    m ∈ (b.pushRaw e).messages ↔
      (m ∈ b.messages ∧ m.event_id ∉ e.targets) ∨ m = e := by
  simp [pushRaw, mem_removeTargets_messages]

theorem mem_pushRaw_known {b : MessageBuffer} {e : AnyRoomEvent} {i : EventId} :
    i ∈ (b.pushRaw e).known_ids ↔
      (i = e.event_id ∨ i ∈ b.known_ids) ∧ i ∉ e.targets := by
  simp [pushRaw, mem_removeTargets_known, Finset.mem_insert]

theorem push_messages_eq (b : MessageBuffer) (e : AnyRoomEvent) :
    (b.push e).messages = (b.pushRaw e).messages.insertionSort tsLe := rfl

theorem push_known_ids (b : MessageBuffer) (e : AnyRoomEvent) :
    (b.push e).known_ids = (b.pushRaw e).known_ids := rfl

theorem push_messages_perm (b : MessageBuffer) (e : AnyRoomEvent) :
    (b.push e).messages.Perm (b.pushRaw e).messages :=
  List.perm_insertionSort tsLe _

theorem mem_push_messages {b : MessageBuffer} {e m : AnyRoomEvent} :
    m ∈ (b.push e).messages ↔
      (m ∈ b.messages ∧ m.event_id ∉ e.targets) ∨ m = e :=
  ((push_messages_perm b e).mem_iff).trans mem_pushRaw_messages

theorem appendStep_messages (b : MessageBuffer) (e : AnyRoomEvent) :
    (appendStep b e).messages = (removeTargets b e).messages := rfl

theorem mem_appendStep_messages {b : MessageBuffer} {e m : AnyRoomEvent} :
    m ∈ (appendStep b e).messages ↔ m ∈ b.messages ∧ m.event_id ∉ e.targets :=
  mem_removeTargets_messages

theorem mem_appendStep_known {b : MessageBuffer} {e : AnyRoomEvent} {i : EventId} :
    i ∈ (appendStep b e).known_ids ↔
      i = e.event_id ∨ (i ∈ b.known_ids ∧ i ∉ e.targets) := by
  simp [appendStep, Finset.mem_insert, mem_removeTargets_known]

theorem appendStep_messages_sublist (b : MessageBuffer) (e : AnyRoomEvent) :
    (appendStep b e).messages.Sublist b.messages :=
  removeTargets_messages_sublist b e

theorem appendStep_startCursor (b : MessageBuffer) (e : AnyRoomEvent) :
    (appendStep b e).startCursor = b.startCursor :=
  removeTargets_startCursor b e

theorem appendStep_endCursor (b : MessageBuffer) (e : AnyRoomEvent) :
    (appendStep b e).endCursor = b.endCursor :=
  removeTargets_endCursor b e

theorem appendStep_loading (b : MessageBuffer) (e : AnyRoomEvent) :
    (appendStep b e).loading = b.loading :=
  removeTargets_loading b e

theorem foldl_appendStep_startCursor (S : List AnyRoomEvent) (b : MessageBuffer) :
    (S.foldl appendStep b).startCursor = b.startCursor := by
  induction S generalizing b with
  | nil => rfl
  | cons x S ih => rw [List.foldl_cons, ih, appendStep_startCursor]

theorem foldl_appendStep_endCursor (S : List AnyRoomEvent) (b : MessageBuffer) :
    (S.foldl appendStep b).endCursor = b.endCursor := by
  induction S generalizing b with
  | nil => rfl
  | cons x S ih => rw [List.foldl_cons, ih, appendStep_endCursor]

theorem foldl_appendStep_loading (S : List AnyRoomEvent) (b : MessageBuffer) :
    (S.foldl appendStep b).loading = b.loading := by
  induction S generalizing b with
  | nil => rfl
  | cons x S ih => rw [List.foldl_cons, ih, appendStep_loading]

theorem foldl_appendStep_messages_sublist (S : List AnyRoomEvent) (b : MessageBuffer) :
    (S.foldl appendStep b).messages.Sublist b.messages := by
  induction S generalizing b with
  | nil => exact List.Sublist.refl _
  | cons x S ih =>
    exact (ih (appendStep b x)).trans (appendStep_messages_sublist b x)

theorem mem_foldl_appendStep_messages {S : List AnyRoomEvent} {b : MessageBuffer}
    {m : AnyRoomEvent} (h : m ∈ (S.foldl appendStep b).messages) : m ∈ b.messages :=
  (foldl_appendStep_messages_sublist S b).subset h

theorem foldl_appendStep_known_sub {S : List AnyRoomEvent} {b : MessageBuffer}
    {i : EventId} (h : i ∈ (S.foldl appendStep b).known_ids) :
    i ∈ b.known_ids ∨ i ∈ idsL S := by
  induction S generalizing b with
  | nil => exact Or.inl h
  | cons x S ih =>
    rcases ih h with h' | h'
    · rcases mem_appendStep_known.mp h' with h'' | h''
      · exact Or.inr (by simp [idsL, h''])
      · exact Or.inl h''.1
    · exact Or.inr (by simp [idsL] at h' ⊢; tauto)

theorem foldl_appendStep_known_preserve {S : List AnyRoomEvent} {b : MessageBuffer}
    {i : EventId} (h : i ∈ b.known_ids) (ht : ∀ x ∈ S, i ∉ x.targets) :
    i ∈ (S.foldl appendStep b).known_ids := by
  induction S generalizing b with
  | nil => exact h
  | cons x S ih =>
    refine ih (mem_appendStep_known.mpr (Or.inr ⟨h, ht x (by simp)⟩)) ?_
    exact fun y hy => ht y (by simp [hy])

theorem foldl_appendStep_known_insert {S : List AnyRoomEvent} {b : MessageBuffer}
    {e : AnyRoomEvent} (he : e ∈ S) (ht : ∀ x ∈ S, e.event_id ∉ x.targets) :
    e.event_id ∈ (S.foldl appendStep b).known_ids := by
  induction S generalizing b with
  | nil => cases he
  | cons x S ih =>
    rw [List.foldl_cons]
    rcases List.mem_cons.mp he with h' | he'
    · subst h'
      exact foldl_appendStep_known_preserve (mem_appendStep_known.mpr (Or.inl rfl))
        (fun y hy => ht y (List.mem_cons_of_mem _ hy))
    · exact ih he' (fun y hy => ht y (List.mem_cons_of_mem _ hy))

theorem foldl_appendStep_target_gone {S : List AnyRoomEvent} {b : MessageBuffer}
    {x : AnyRoomEvent} {t : EventId} (hx : x ∈ S) (ht : t ∈ x.targets) :
    ∀ m ∈ (S.foldl appendStep b).messages, m.event_id ≠ t := by
  induction S generalizing b with
  | nil => cases hx
  | cons y S ih =>
    rcases List.mem_cons.mp hx with rfl | hx'
    · intro m hm
      have hm' : m ∈ (appendStep b x).messages := mem_foldl_appendStep_messages hm
      have := (mem_appendStep_messages.mp hm').2
      intro hEq
      exact this (hEq ▸ ht)
    · exact fun m hm => ih hx' m hm

theorem foldl_appendStep_mirror {S : List AnyRoomEvent} {b : MessageBuffer}
    (h : ∀ m ∈ b.messages, m.event_id ∈ b.known_ids) :
    ∀ m ∈ (S.foldl appendStep b).messages,
      m.event_id ∈ (S.foldl appendStep b).known_ids := by
  induction S generalizing b with
  | nil => exact h
  | cons x S ih =>
    refine ih ?_
    intro m hm
    have h1 := mem_appendStep_messages.mp hm
    exact mem_appendStep_known.mpr (Or.inr ⟨h m h1.1, h1.2⟩)

theorem mem_survivors {b : MessageBuffer} {es : List AnyRoomEvent} {x : AnyRoomEvent} :
    x ∈ survivors b es ↔ x ∈ es ∧ x.event_id ∉ b.known_ids := by
  simp [survivors, List.mem_filter]

theorem survivors_sublist (b : MessageBuffer) (es : List AnyRoomEvent) :
    (survivors b es).Sublist es :=
  List.filter_sublist es

theorem appendRaw_messages (b : MessageBuffer) (es : List AnyRoomEvent) :
    (b.appendRaw es).messages =
      ((survivors b es).foldl appendStep b).messages ++ survivors b es := rfl

theorem appendRaw_known (b : MessageBuffer) (es : List AnyRoomEvent) :
    (b.appendRaw es).known_ids = ((survivors b es).foldl appendStep b).known_ids := rfl

theorem append_messages_eq (b : MessageBuffer) (es : List AnyRoomEvent) :
    (b.append es).messages = (b.appendRaw es).messages.insertionSort tsLe := rfl

theorem append_known_ids (b : MessageBuffer) (es : List AnyRoomEvent) :
    (b.append es).known_ids = ((survivors b es).foldl appendStep b).known_ids := rfl

theorem append_messages_perm (b : MessageBuffer) (es : List AnyRoomEvent) :
    (b.append es).messages.Perm (b.appendRaw es).messages :=
  List.perm_insertionSort tsLe _

theorem append_startCursor (b : MessageBuffer) (es : List AnyRoomEvent) :
    (b.append es).startCursor = b.startCursor := by
  simp [append, appendRaw, foldl_appendStep_startCursor]

theorem append_endCursor (b : MessageBuffer) (es : List AnyRoomEvent) :
    (b.append es).endCursor = b.endCursor := by
  simp [append, appendRaw, foldl_appendStep_endCursor]

theorem append_loading (b : MessageBuffer) (es : List AnyRoomEvent) :
    (b.append es).loading = b.loading := by
  simp [append, appendRaw, foldl_appendStep_loading]

theorem mem_append_messages {b : MessageBuffer} {es : List AnyRoomEvent}
    {m : AnyRoomEvent} :
    m ∈ (b.append es).messages ↔
      m ∈ ((survivors b es).foldl appendStep b).messages ∨ m ∈ survivors b es := by
  rw [(append_messages_perm b es).mem_iff, appendRaw_messages, List.mem_append]

theorem sorted_sort (b : MessageBuffer) : List.Sorted tsLe b.sort.messages :=
  List.sorted_insertionSort tsLe b.messages

theorem sort_eq_self {b : MessageBuffer} (h : List.Sorted tsLe b.messages) :
    b.sort = b := by
  unfold sort
  rw [h.insertionSort_eq]

theorem update_time_idem (b : MessageBuffer) :
    b.update_time.update_time = b.update_time := rfl

theorem sort_update_time_fix (b : MessageBuffer) :
    ((b.sort).update_time).sort.update_time = (b.sort).update_time := by
  have hs : List.Sorted tsLe ((b.sort).update_time).messages := sorted_sort b
  rw [sort_eq_self hs, update_time_idem]

end MessageBuffer

/-- BTreeMap::insert followed by get at the inserted key yields the
inserted value. -/
theorem mapLookup_mapInsert_self (m : List (Nat × RoomEntry)) (k : Nat) (v : RoomEntry) :
    mapLookup (mapInsert m k v) k = some v := by
  induction m with
  | nil => simp [mapInsert, mapLookup]
  | cons p m ih =>
    rcases p with ⟨k', v'⟩
    by_cases h : k' = k
    · subst h
      simp [mapInsert, mapLookup]
    · simp [mapInsert, mapLookup, h, ih]

/-- The token chosen by the BackFill arm: the stored end cursor when
present, else the external fallback. -/
theorem backFill_token (view : MainView) (id : Nat) (lpb : Option String)
    (room : RoomEntry) (h : mapLookup view.rooms id = some room) :
    (view.backFill id lpb).2 =
      (match room.messages.endCursor with
       | some e => e
       | none => lpb.getD view.sync_token) := by
  simp [MainView.backFill, h]

/-! The claims. -/

/-- Claim C1, counterexample: MessageBuffer::push performs no duplicate
check, so pushing the same event twice stores two entries with the same
event id, although the id was already in known_ids at the second push. -/
theorem C1_push_duplicate_counterexample :
    idsL ((MessageBuffer.default.push evA).push evA).messages = [0, 0]
    ∧ ¬ (idsL ((MessageBuffer.default.push evA).push evA).messages).Nodup
    ∧ evA.event_id ∈ (MessageBuffer.default.push evA).known_ids := by
  refine ⟨by decide, by decide, by decide⟩

/-- Claim C2: the known-id mirror invariant fails on a relation-carrying
event whose target id equals its own id.  push inserts the id into
known_ids first and performs the relation removal afterwards, so pushing
a self-targeting redaction leaves the event stored while its id is
absent from known_ids. -/
theorem C2_self_redaction_breaks_mirror :
    idsL (MessageBuffer.default.push selfRedact).messages = [0]
    ∧ (MessageBuffer.default.push selfRedact).known_ids = ∅ := by
  refine ⟨by decide, by decide⟩

/-- Claim C3: after every push and every append the stored events are
ascending by origin server timestamp; tsLe relates two events exactly
when the first has a timestamp less than or equal to the second. -/
theorem C3_sorted_after_push_append (b : MessageBuffer) (e : AnyRoomEvent)
    (es : List AnyRoomEvent) :
    List.Chain' tsLe (b.push e).messages ∧ List.Chain' tsLe (b.append es).messages := by
  constructor
  · exact (List.chain'_iff_pairwise).mpr (List.sorted_insertionSort tsLe _)
  · exact (List.chain'_iff_pairwise).mpr (List.sorted_insertionSort tsLe _)

/-- Claim C4, counterexample: when the edit arrives before its target,
the removal is a no-op and the later push of the original stores it next
to the edit, so the store holds an original and its replacement
successor simultaneously. -/
theorem C4_late_original_coexists :
    editOfA.replacementTarget = some evA.event_id
    ∧ evA ∈ ((MessageBuffer.default.push editOfA).push evA).messages
    ∧ editOfA ∈ ((MessageBuffer.default.push editOfA).push evA).messages := by
  refine ⟨rfl, by decide, by decide⟩

/-- Claim C5: after a backfill request for room 0 is issued and its
asynchronous request fails (delivering Message::ErrorMessage), the
loading flag of the room store is still true; only the cursors are left
unchanged.  The code never resets loading on the error path. -/
theorem C5_failed_backfill_leaves_loading :
    (mapLookup (((viewST.backFill 0 none).1.errorMessage "request failed").rooms) 0).map
        (fun r => (r.messages.loading, r.messages.startCursor, r.messages.endCursor))
      = some (true, some "S", some "T")
    ∧ (viewST.backFill 0 none).2 = "T" := by
  refine ⟨rfl, rfl⟩

/-- Claim C6: on a room id with no registry entry, the SelectRoom and
BackFilled arms unwrap the registry lookup and panic (modelled as none)
instead of creating the entry on demand; the Sync event arms do create
the entry on demand (third conjunct). -/
theorem C6_missing_entry_panics :
    emptyView.selectRoom 0 = none
    ∧ emptyView.backFilled 0 respC7 = none
    ∧ (mapLookup ((emptyView.syncRoomAvatar 1 2 0 none).rooms) 0).isSome = true := by
  refine ⟨rfl, rfl, rfl⟩

/-- Claim C8, counterexample: the contract of
Vec::sort_unstable_by_key admits, for two distinct events with equal
timestamps arriving in the order evA then evB5, the output in which the
later-arrived event precedes the earlier one; stability is therefore
not guaranteed by the sort the code uses. -/
theorem C8_unstable_sort_counterexample :
    sortContract [evA, evB5] [evB5, evA]
    ∧ ([evB5, evA] : List AnyRoomEvent) ≠ [evA, evB5]
    ∧ evA.origin_server_ts = evB5.origin_server_ts := by
  refine ⟨⟨by decide, List.Chain.cons (by decide) List.Chain.nil⟩, by decide, by decide⟩

/-- Claim C8 (amended): after push and append the stored events are a
permutation of the pre-sort contents that is ascending by timestamp
(this is all the unstable sort guarantees); the relative order of
equal-timestamp events is not specified. -/
theorem C8_sort_contract (b : MessageBuffer) (e : AnyRoomEvent)
    (es : List AnyRoomEvent) :
    sortContract (b.pushRaw e).messages (b.push e).messages
    ∧ sortContract (b.appendRaw es).messages (b.append es).messages := by
  refine ⟨⟨MessageBuffer.push_messages_perm b e, ?_⟩,
    ⟨MessageBuffer.append_messages_perm b es, ?_⟩⟩
  · exact (List.chain'_iff_pairwise).mpr (List.sorted_insertionSort tsLe _)
  · exact (List.chain'_iff_pairwise).mpr (List.sorted_insertionSort tsLe _)

/-- Claim C9: applying a RoomAvatar state event carrying an mxc url to
a room whose entry has no avatar leaves the avatar field at none: the
handler reads back the previously stored avatar value and never
consults the url carried by the event. -/
theorem C9_avatar_url_not_recorded :
    (mapLookup ((emptyView.syncRoomAvatar 1 2 0 (some "mxc://example.org/abc")).rooms) 0).map
        (fun r => r.avatar)
      = some none := by
  rfl

/-- Claim C1 (amended): push performs no duplicate check, so uniqueness
of stored ids is only preserved under the conditions the counterexamples
force: the pushed event has a fresh id and does not target its own id,
and the appended batch has pairwise distinct ids none of which is the
relation target of a batch element.  Under these conditions push, append
and remove preserve the invariant that no two stored events share an id
and every stored id is in known_ids. -/
theorem C1_unique_ids_invariant (b : MessageBuffer) (e : AnyRoomEvent)
    (es : List AnyRoomEvent) (i : EventId)
    (hInv : b.Inv)
    (hfresh : e.event_id ∉ b.known_ids)
    (hself : e.event_id ∉ e.targets)
    (hnodup : (idsL es).Nodup)
    (hbatch : ∀ x ∈ es, ∀ t ∈ x.targets, t ∉ idsL es) :
    (b.push e).Inv ∧ (b.append es).Inv ∧ (b.remove i).Inv := by
  obtain ⟨hN, hM⟩ := hInv
  have hfreshmsg : e.event_id ∉ idsL b.messages := by
    intro hmem
    rcases List.mem_map.mp hmem with ⟨m, hm, hid⟩
    exact hfresh (hid ▸ hM m hm)
  refine ⟨⟨?_, ?_⟩, ⟨?_, ?_⟩, ⟨?_, ?_⟩⟩
  · -- push keeps ids pairwise distinct
    refine (((MessageBuffer.push_messages_perm b e).map AnyRoomEvent.event_id).nodup_iff).mpr ?_
    have hsub : (MessageBuffer.removeTargets
        { b with known_ids := insert e.event_id b.known_ids } e).messages.Sublist b.messages :=
      MessageBuffer.removeTargets_messages_sublist _ e
    have hRTnodup : (idsL (MessageBuffer.removeTargets
        { b with known_ids := insert e.event_id b.known_ids } e).messages).Nodup :=
      List.Nodup.sublist (hsub.map AnyRoomEvent.event_id) hN
    show (idsL ((MessageBuffer.removeTargets
        { b with known_ids := insert e.event_id b.known_ids } e).messages ++ [e])).Nodup
    rw [idsL, List.map_append]
    refine List.nodup_append.mpr ⟨hRTnodup, by simp, ?_⟩
    intro j hj hj'
    rcases List.mem_singleton.mp hj' with rfl
    exact hfreshmsg ((hsub.map AnyRoomEvent.event_id).subset hj)
  · -- push keeps the known-id mirror
    intro m hm
    rw [MessageBuffer.push_known_ids]
    rcases MessageBuffer.mem_push_messages.mp hm with ⟨hmb, hmt⟩ | rfl
    · exact MessageBuffer.mem_pushRaw_known.mpr ⟨Or.inr (hM m hmb), hmt⟩
    · exact MessageBuffer.mem_pushRaw_known.mpr ⟨Or.inl rfl, hself⟩
  · -- append keeps ids pairwise distinct
    have hpa := MessageBuffer.append_messages_perm b es
    rw [MessageBuffer.appendRaw_messages] at hpa
    refine ((hpa.map AnyRoomEvent.event_id).nodup_iff).mpr ?_
    show (idsL (((MessageBuffer.survivors b es).foldl MessageBuffer.appendStep b).messages
      ++ MessageBuffer.survivors b es)).Nodup
    rw [idsL, List.map_append]
    refine List.nodup_append.mpr ⟨?_, ?_, ?_⟩
    · exact List.Nodup.sublist
        ((MessageBuffer.foldl_appendStep_messages_sublist _ b).map AnyRoomEvent.event_id) hN
    · exact List.Nodup.sublist
        ((MessageBuffer.survivors_sublist b es).map AnyRoomEvent.event_id) hnodup
    · intro j hjX hjS
      rcases List.mem_map.mp hjX with ⟨m, hm, hid⟩
      rcases List.mem_map.mp hjS with ⟨x, hx, hid'⟩
      have hjk : j ∈ b.known_ids :=
        hid ▸ hM m (MessageBuffer.mem_foldl_appendStep_messages hm)
      exact (MessageBuffer.mem_survivors.mp hx).2 (hid' ▸ hjk)
  · -- append keeps the known-id mirror
    intro m hm
    rw [MessageBuffer.append_known_ids]
    rcases MessageBuffer.mem_append_messages.mp hm with hm' | hm'
    · exact MessageBuffer.foldl_appendStep_mirror hM m hm'
    · refine MessageBuffer.foldl_appendStep_known_insert hm' ?_
      intro x hx ht
      have hxes : x ∈ es := (MessageBuffer.survivors_sublist b es).subset hx
      have hmes : m ∈ es := (MessageBuffer.survivors_sublist b es).subset hm'
      exact hbatch x hxes m.event_id ht (List.mem_map_of_mem _ hmes)
  · -- remove keeps ids pairwise distinct
    exact List.Nodup.sublist
      ((MessageBuffer.remove_messages_sublist b i).map AnyRoomEvent.event_id) hN
  · -- remove keeps the known-id mirror
    intro m hm
    obtain ⟨hmb, hne⟩ := MessageBuffer.mem_remove_messages.mp hm
    rw [MessageBuffer.remove_known_ids]
    exact Finset.mem_erase.mpr ⟨hne, hM m hmb⟩

/-- Claim C1 witness: the guarded invariant preservation applied to the
empty buffer, a fresh push, a fresh batch and a removal. -/
theorem C1_unique_ids_invariant_witness :
    (MessageBuffer.default.push evA).Inv
    ∧ (MessageBuffer.default.append [evB]).Inv
    ∧ (MessageBuffer.default.remove 7).Inv :=
  C1_unique_ids_invariant MessageBuffer.default evA [evB] 7
    (by constructor <;> decide) (by decide) (by decide) (by decide) (by decide)

/-- Claim C4 (amended): a push of a relation-carrying event removes
every stored event with the target id before storing the event, so
immediately afterwards the target id is absent, provided the target is
not the event its own id; the same holds for an appended batch element
that survives deduplication, provided the target is not the id of a
batch element.  The counterexample shows the store can nevertheless
hold an original and its successor when the original arrives after the
relation event. -/
theorem C4_target_removed_on_arrival (b : MessageBuffer) (e x : AnyRoomEvent)
    (t : EventId) (es : List AnyRoomEvent) :
    (t ∈ e.targets → t ≠ e.event_id → ∀ m ∈ (b.push e).messages, m.event_id ≠ t)
    ∧ (x ∈ es → x.event_id ∉ b.known_ids → t ∈ x.targets → t ∉ idsL es →
        ∀ m ∈ (b.append es).messages, m.event_id ≠ t) := by
  constructor
  · intro ht hne m hm
    rcases MessageBuffer.mem_push_messages.mp hm with ⟨_, hmt⟩ | rfl
    · intro hEq
      exact hmt (hEq ▸ ht)
    · exact hne.symm
  · intro hx hfresh ht hno m hm
    rcases MessageBuffer.mem_append_messages.mp hm with hm' | hm'
    · exact MessageBuffer.foldl_appendStep_target_gone
        (MessageBuffer.mem_survivors.mpr ⟨hx, hfresh⟩) ht m hm'
    · intro hEq
      exact hno (hEq ▸ List.mem_map_of_mem _ ((MessageBuffer.survivors_sublist b es).subset hm'))

/-- Claim C4 witness: the removal guarantee applied to concrete pushes
and appends of an edit targeting id 0. -/
theorem C4_target_removed_on_arrival_witness :
    editOfA.event_id ≠ 0 ∧ evC.event_id ≠ 0 :=
  ⟨(C4_target_removed_on_arrival MessageBuffer.default editOfA editOfA 0 [editOfA]).1
      (by decide) (by decide) editOfA (by decide),
   (C4_target_removed_on_arrival MessageBuffer.default editOfA editOfA 0 [editOfA, evC]).2
      (by decide) (by decide) (by decide) (by decide) evC (by decide)⟩

/-- Claim C10 (amended): append is idempotent provided no batch element
carries a relation targeting the id of a batch element: after the first
append every batch id is in known_ids, so the second append filters out
the whole batch and leaves the store unchanged. -/
theorem C10_append_idempotent (b : MessageBuffer) (es : List AnyRoomEvent)
    (hbatch : ∀ x ∈ es, ∀ t ∈ x.targets, t ∉ idsL es) :
    (b.append es).append es = b.append es := by
  have hknown : ∀ e ∈ es, e.event_id ∈ (b.append es).known_ids := by
    intro e he
    rw [MessageBuffer.append_known_ids]
    have hEnotT : ∀ x ∈ MessageBuffer.survivors b es, e.event_id ∉ x.targets := by
      intro x hx ht
      exact hbatch x ((MessageBuffer.survivors_sublist b es).subset hx) e.event_id ht
        (List.mem_map_of_mem _ he)
    by_cases hk : e.event_id ∈ b.known_ids
    · exact MessageBuffer.foldl_appendStep_known_preserve hk hEnotT
    · exact MessageBuffer.foldl_appendStep_known_insert
        (MessageBuffer.mem_survivors.mpr ⟨he, hk⟩) hEnotT
  have hsurv : MessageBuffer.survivors (b.append es) es = [] := by
    refine List.filter_eq_nil_iff.mpr ?_
    intro a ha
    simp [hknown a ha]
  have hraw : (b.append es).appendRaw es = b.append es := by
    simp only [MessageBuffer.appendRaw, hsurv, List.foldl_nil, List.append_nil]
  show ((b.append es).appendRaw es).sort.update_time = b.append es
  rw [hraw]
  exact MessageBuffer.sort_update_time_fix (b.appendRaw es)

/-- Claim C10 witness: idempotence applied to a concrete batch with no
in-batch relation targets. -/
theorem C10_append_idempotent_witness :
    (MessageBuffer.default.append [evA, evB]).append [evA, evB]
      = MessageBuffer.default.append [evA, evB] :=
  C10_append_idempotent MessageBuffer.default [evA, evB] (by decide)

/-- Claim C7: the backfill request token is the stored end cursor when
present and the external fallback (last_prev_batch, else the global sync
token) otherwise; a merged response overwrites the start and end cursors
exactly when it carries them; and a subsequent backward request for the
room uses the end cursor the response delivered. -/
theorem C7_backfill_cursor_discipline (view view' : MainView) (id : Nat)
    (lpb lpb2 : Option String) (room room' : RoomEntry) (resp : MessageResponse)
    (h : mapLookup view.rooms id = some room)
    (hbf : view.backFilled id resp = some view')
    (hr : mapLookup view'.rooms id = some room') :
    (view.backFill id lpb).2 =
      (match room.messages.endCursor with
       | some e => e
       | none => lpb.getD view.sync_token)
    ∧ room'.messages.startCursor =
        (match resp.startTok with
         | some s => some s
         | none => room.messages.startCursor)
    ∧ room'.messages.endCursor =
        (match resp.endTok with
         | some e => some e
         | none => room.messages.endCursor)
    ∧ (∀ e2, resp.endTok = some e2 → (view'.backFill id lpb2).2 = e2) := by
  simp only [MainView.backFilled, h] at hbf
  rcases hs : resp.startTok with _ | s <;> rcases he : resp.endTok with _ | e2' <;>
    simp only [hs, he] at hbf <;>
    obtain rfl := (Option.some.injEq _ _).mp hbf <;>
    (have hr2 := hr; rw [mapLookup_mapInsert_self] at hr2;
     obtain rfl := (Option.some.injEq _ _).mp hr2)
  all_goals
    refine ⟨backFill_token view id lpb room h, ?_, ?_, ?_⟩
  all_goals
    first
    | (intro e2 he2
       exact Option.noConfusion he2)
    | (intro e2 he2
       obtain rfl := (Option.some.injEq _ _).mp he2
       rw [backFill_token _ id lpb2 _ hr]
       simp [MessageBuffer.append_endCursor]
       done)
    | (simp [MessageBuffer.append_startCursor, MessageBuffer.append_endCursor, hs, he]
       done)

/-- Claim C7 witness: the cursor discipline applied to a concrete view
holding cursors "S"/"T" and a response carrying "S2"/"T2". -/
theorem C7_backfill_cursor_discipline_witness :
    (viewST.backFill 0 none).2 = "T"
    ∧ roomC7.messages.startCursor = some "S2"
    ∧ roomC7.messages.endCursor = some "T2"
    ∧ (viewC7.backFill 0 (some "stale")).2 = "T2" := by
  have h := C7_backfill_cursor_discipline viewST viewC7 0 none (some "stale")
    entryST roomC7 respC7 rfl rfl rfl
  exact ⟨h.1, h.2.1, h.2.2.1, h.2.2.2 "T2" rfl⟩

/-- Claim C10, counterexample: appending the batch [evA, editOfA] twice
differs from appending it once.  During the first append the edit
removes the id of evA from known_ids after it was inserted, so the
second append fails to deduplicate evA and stores it a second time. -/
theorem C10_append_twice_counterexample :
    ((MessageBuffer.default.append [evA, editOfA]).append [evA, editOfA])
      ≠ MessageBuffer.default.append [evA, editOfA]
    ∧ idsL (((MessageBuffer.default.append [evA, editOfA]).append [evA, editOfA]).messages)
        = [0, 0, 1] := by
  refine ⟨by decide, by decide⟩

end Retrix
